import Mathlib

/-!
Verification development for a minimal object-relational mapping layer.

The development shallowly embeds the core of the library:
* the scalar codec (`src/data.rs`): `Value`, `DataType`, the `AsDataType`
  implementations for the five built-in scalar types;
* the schema descriptors (`src/object.rs`): `Field`, `Schema`;
* the error mapper (`src/error.rs`): the classification of backend errors
  into the schema-aware taxonomy, its diagnostic-text parsing and the
  `get_field_by_name` fallback;
* the transaction core (`src/transaction.rs`): the per-transaction identity
  map with its dirty-state machine, handles (`Tx`), and commit-time flushing.

Shared mutable `Rc<Cell<ObjectState>>` / `Rc<RefCell<dyn Store>>` cells are
modelled by explicit heaps indexed by cell / slot identifiers inside a
`TxState`; handles carry the indices they share.  Backend calls are modelled
by explicit oracle arguments (the value the backend call would return) and,
for commit, by a trace of issued calls.  Panics (`panic!`, `expect`,
`unwrap`, `RefCell` borrow violations) are modelled as `none` / `Option`.
-/

namespace ORM

/-! ### Scalar data model (`src/data.rs`) -/

/-- Model of `DataType` from `src/data.rs`. -/
inductive DataType
  | String
  | Bytes
  | Int64
  | Float64
  | Bool
deriving DecidableEq

/-- Model of `Value<'a>` from `src/data.rs`.  The `Cow` borrowed/owned
distinction is a memory-layout detail with no observable effect on the value;
`f64` payloads are modelled by their bit patterns (a `Nat`), which is exact
because the codec never inspects or computes with float payloads. -/
inductive Value
  | String (s : String)
  | Bytes (b : List Nat)
  | Int64 (x : Int)
  | Float64 (bits : Nat)
  | Bool (b : Bool)
deriving DecidableEq

/-- `<String as AsDataType>::as_value`. -/
def asValueString (s : String) : Value := Value.String s

/-- `<String as AsDataType>::from_value`; the `panic!("not expected type")`
on a mismatched variant is modelled as `none`. -/
def fromValueString : Value → Option String
  | Value.String s => some s
  | _ => none

/-- `<Vec<u8> as AsDataType>::as_value`. -/
def asValueBytes (b : List Nat) : Value := Value.Bytes b

/-- `<Vec<u8> as AsDataType>::from_value`. -/
def fromValueBytes : Value → Option (List Nat)
  | Value.Bytes b => some b
  | _ => none

/-- `<i64 as AsDataType>::as_value`. -/
def asValueInt64 (x : Int) : Value := Value.Int64 x

/-- `<i64 as AsDataType>::from_value`. -/
def fromValueInt64 : Value → Option Int
  | Value.Int64 x => some x
  | _ => none

/-- `<f64 as AsDataType>::as_value` (float payloads are bit patterns). -/
def asValueFloat64 (bits : Nat) : Value := Value.Float64 bits

/-- `<f64 as AsDataType>::from_value`. -/
def fromValueFloat64 : Value → Option Nat
  | Value.Float64 bits => some bits
  | _ => none

/-- `<bool as AsDataType>::as_value`. -/
def asValueBool (b : Bool) : Value := Value.Bool b

/-- `<bool as AsDataType>::from_value`. -/
def fromValueBool : Value → Option Bool
  | Value.Bool b => some b
  | _ => none

/-- A field value of one of the five built-in scalar attribute types
(`String`, `Vec<u8>`, `i64`, `f64`, `bool`). -/
inductive Scalar
  | str (s : String)
  | bytes (b : List Nat)
  | int (x : Int)
  | float (bits : Nat)
  | bool (b : Bool)
deriving DecidableEq

/-- The `DATA_TYPE` associated constant of the scalar's host type. -/
def Scalar.dataType : Scalar → DataType
  | .str _ => .String
  | .bytes _ => .Bytes
  | .int _ => .Int64
  | .float _ => .Float64
  | .bool _ => .Bool

/-- Dispatch to the host type's `as_value`. -/
def Scalar.toValue : Scalar → Value
  | .str s => asValueString s
  | .bytes b => asValueBytes b
  | .int x => asValueInt64 x
  | .float bits => asValueFloat64 bits
  | .bool b => asValueBool b

/-- Dispatch to the `from_value` of the host type named by the `DataType`
tag (this is how the derived `from_row` decodes column `i` at the field's
static type). -/
def fromValueAt : DataType → Value → Option Scalar
  | .String, v => (fromValueString v).map .str
  | .Bytes, v => (fromValueBytes v).map .bytes
  | .Int64, v => (fromValueInt64 v).map .int
  | .Float64, v => (fromValueFloat64 v).map .float
  | .Bool, v => (fromValueBool v).map .bool

/-- The derived `as_row`: `vec![field0.as_value(), field1.as_value(), …]`,
one value per field in declaration order. -/
def toRow (xs : List Scalar) : List Value := xs.map Scalar.toValue

/-- The derived `from_row`: field `i` is decoded by
`<FieldType as AsDataType>::from_value(&row[#i])`.  Indexing past the end of
`row` is a panic (`none`); row entries beyond the last field are ignored,
exactly as positional indexing ignores them. -/
def fromRow : List DataType → List Value → Option (List Scalar)
  | [], _ => some []
  | _ :: _, [] => none
  | t :: ts, v :: vs =>
    match fromValueAt t v, fromRow ts vs with
    | some x, some xs => some (x :: xs)
    | _, _ => none

/-! ### Schema descriptors (`src/object.rs`) -/

/-- Model of `Field` from `src/object.rs`. -/
structure Field where
  attr_name : String
  column_name : String
  column_type : DataType
deriving DecidableEq

/-- Model of `Schema` from `src/object.rs` (the static `&'static [Field]`
is a list). -/
structure Schema where
  type_name : String
  table_name : String
  fields : List Field
deriving DecidableEq

/-! ### Error taxonomy and mapper (`src/error.rs`) -/

/-- Model of `rusqlite::ErrorCode`: only `DatabaseBusy` is distinguished by
the mapper, all other codes are collapsed into `OtherCode`. -/
inductive ErrorCode
  | DatabaseBusy
  | OtherCode (n : Nat)
deriving DecidableEq

/-- Model of the `rusqlite::Error` variants the mapper dispatches on.
`SqliteFailure` carries the `ffi::Error` code (the ignored `extended_code`
is dropped) and the optional diagnostic text, modelled as a `List Char`;
`InvalidColumnType` carries the column index, column name and the reported
type (`FromSqlError`/`Type`, modelled as a `String` as the mapper only calls
`to_string` on it); every remaining variant is collapsed into `OtherErr`. -/
inductive RusqliteError
  | SqliteFailure (code : ErrorCode) (msg : Option (List Char))
  | QueryReturnedNoRows
  | InvalidColumnType (idx : Nat) (column_name : String) (got_type : String)
  | OtherErr (n : Nat)
deriving DecidableEq

/-- Model of `Error` from `src/error.rs` (the `Box` indirections and the
per-kind error structs are flattened into constructor fields). -/
inductive Error
  | NotFound (object_id : Int) (type_name : String)
  | UnexpectedType (type_name attr_name table_name column_name : String)
      (expected_type : DataType) (got_type : String)
  | MissingColumn (type_name attr_name table_name column_name : String)
  | LockConflict
  | Storage (source : RusqliteError)
deriving DecidableEq

/-- Model of `ErrorCtx<'a>` from `src/error.rs`. -/
structure ErrorCtx where
  schema : Option Schema := none
  object_id : Option Int := none

/-- Index of the first occurrence of `pat` in `s` (`str::find`). -/
def findSub (pat : List Char) : List Char → Option Nat
  | [] => if pat = [] then some 0 else none
  | c :: rest =>
    if pat.isPrefixOf (c :: rest) then some 0
    else (findSub pat rest).map (· + 1)

/-- `str::contains(pat)`. -/
def containsSub (pat s : List Char) : Bool := (findSub pat s).isSome

/-- The diagnostic-text parse in the missing-column arm of the mapper:
`text.find("no such column: ")` followed by `strip_prefix` of the same
pattern (which always succeeds at the found index, leaving the rest of the
text), falling back to the `"has no column named "` pattern whose `find` is
`unwrap`ped (`none` models that panic). -/
def extractColumnName (text : List Char) : Option (List Char) :=
  match findSub ("no such column: ".toList) text with
  | some i => some (text.drop (i + "no such column: ".length))
  | none =>
    match findSub ("has no column named ".toList) text with
    | some i => some (text.drop (i + "has no column named ".length))
    | none => none

/-- `get_field_by_name` from `src/error.rs`: first field whose
`column_name` matches, else the synthetic `id` field descriptor. -/
def getFieldByName (schema : Schema) (column_name : String) : Field :=
  match schema.fields.find? (fun f => f.column_name = column_name) with
  | some f => f
  | none => ⟨"id", "id", DataType.Int64⟩

/-- The two-disjunct guard of the missing-column match arm:
`text.contains("no such column:") || text.contains("has no column named")`
(note: without the trailing space, unlike the parse patterns). -/
def missingColumnGuard (text : List Char) : Bool :=
  containsSub ("no such column:".toList) text ||
    containsSub ("has no column named".toList) text

/-- Model of `From<ErrorWithCtx<rusqlite::Error>> for Error`
(`src/error.rs`).  The match arms are tried in source order: busy first,
then the guarded missing-column arm, then `QueryReturnedNoRows`, then
`InvalidColumnType`, then the `Storage` catch-all.  `expect`/`unwrap`
panics are modelled as `none`. -/
def errorFromCtx (err : RusqliteError) (ctx : ErrorCtx) : Option Error :=
  match err with
  | .SqliteFailure .DatabaseBusy _ => some Error.LockConflict
  | .SqliteFailure (.OtherCode _) (some text) =>
    if missingColumnGuard text then
      match extractColumnName text with
      | none => none
      | some name =>
        match ctx.schema with
        | none => none
        | some schema =>
          let field := getFieldByName schema (String.mk name)
          some (Error.MissingColumn schema.type_name field.attr_name
            schema.table_name field.column_name)
    else some (Error.Storage err)
  | .SqliteFailure (.OtherCode _) none => some (Error.Storage err)
  | .QueryReturnedNoRows =>
    match ctx.object_id with
    | none => none
    | some id =>
      match ctx.schema with
      | none => none
      | some schema => some (Error.NotFound id schema.type_name)
  | .InvalidColumnType _ column_name got_type =>
    match ctx.schema with
    | none => none
    | some schema =>
      let field := getFieldByName schema column_name
      some (Error.UnexpectedType schema.type_name field.attr_name
        schema.table_name field.column_name field.column_type got_type)
  | .OtherErr _ => some (Error.Storage err)

/-! ### Transaction core (`src/transaction.rs`)

Shared `Rc<Cell<ObjectState>>` state cells and `Rc<RefCell<dyn Store>>`
object slots are modelled by two heaps inside `TxState`, indexed by
`cellId` / `slotId`; cloning an `Rc` is sharing the index.  The dynamic
`RefCell` borrow flag of each slot is tracked in `locks`.  Backend calls
are oracle arguments (the result the call would produce). -/

/-- Model of `ObjectState` from `src/transaction.rs`. -/
inductive ObjectState
  | Clean
  | Modified
  | Removed
deriving DecidableEq

/-- Position of a state along the forward order `Clean → Modified → Removed`. -/
def ObjectState.rank : ObjectState → Nat
  | .Clean => 0
  | .Modified => 1
  | .Removed => 2

/-- The forward order on dirty states. -/
def stateLe (a b : ObjectState) : Prop := a.rank ≤ b.rank

instance (a b : ObjectState) : Decidable (stateLe a b) := Nat.decLe _ _

/-- The content of one `Rc<RefCell<dyn Store>>` slot: the materialised user
object, observed through its `Store` vtable as `obj.schema()` and
`obj.as_row()` (by the codec round trip, the row determines the object). -/
structure StoredObj where
  schema : Schema
  row : List Value
deriving DecidableEq

instance : Inhabited StoredObj := ⟨⟨⟨"", "", []⟩, []⟩⟩

/-- Model of `CacheKey = (TypeId, ObjectId)`; a `TypeId` is a `Nat` tag. -/
abbrev CacheKey := Nat × Int

/-- Model of `CacheValue`: its two `Rc`s are indices into the cell and slot
heaps. -/
structure CacheValue where
  cellId : Nat
  slotId : Nat
deriving DecidableEq

/-- The dynamic borrow flag of one `RefCell` slot. -/
inductive LockSt
  | free
  | reading (n : Nat)
  | writing
deriving DecidableEq

/-- Model of a `Transaction`'s mutable state: the slot heap, the state-cell
heap, the borrow flag of each slot, and the identity map `cache` as an
association list keyed by `(TypeId, ObjectId)`. -/
structure TxState where
  slots : List StoredObj
  cells : List ObjectState
  locks : List LockSt
  cache : List (CacheKey × CacheValue)
deriving DecidableEq

/-- `HashMap` lookup on the association list. -/
def lookupCache : List (CacheKey × CacheValue) → CacheKey → Option CacheValue
  | [], _ => none
  | (k', v) :: rest, k => if k' = k then some v else lookupCache rest k

/-- `HashMap::insert`: replace the value at an existing key, else add the
binding. -/
def insertCache (k : CacheKey) (v : CacheValue) :
    List (CacheKey × CacheValue) → List (CacheKey × CacheValue)
  | [] => [(k, v)]
  | (k', v') :: rest =>
    if k' = k then (k, v) :: rest else (k', v') :: insertCache k v rest

/-- Well-formedness of a transaction state: the identity map holds at most
one entry per `(type, id)` key, and every entry's cell and slot indices are
live heap indices. -/
def TxState.wf (s : TxState) : Prop :=
  (s.cache.map Prod.fst).Nodup ∧
    ∀ e ∈ s.cache, e.2.cellId < s.cells.length ∧ e.2.slotId < s.slots.length

instance (s : TxState) : Decidable s.wf :=
  decidable_of_iff
    ((s.cache.map Prod.fst).Nodup ∧
      ∀ e ∈ s.cache, e.2.cellId < s.cells.length ∧ e.2.slotId < s.slots.length)
    Iff.rfl

/-- The compile-time data of a persistable type `T`: its `TypeId` tag and
its `SCHEMA`. -/
structure TypeInfo where
  tag : Nat
  schema : Schema

/-- Model of the handle `Tx<'a, T>`: the object id plus the indices of the
shared state cell and object slot (its two cloned `Rc`s). -/
structure Tx where
  id : Int
  cellId : Nat
  slotId : Nat
deriving DecidableEq

/-- `Tx::state`: read the shared state cell. -/
def Tx.state (h : Tx) (s : TxState) : ObjectState := s.cells.getD h.cellId .Clean

/-- Model of `Transaction::create`.  `prep` is the combined outcome of
`ensure_table` (`table_exists`, plus `create_table` when absent) and `ins`
the outcome of `insert_row`; both backend calls happen before any cache
mutation, so an error leaves the state untouched.  On success the object is
moved into a fresh slot, a fresh `Clean` cell is allocated, the entry is
installed under `(TypeId::of::<T>(), id)` by `HashMap::insert` (replacing
any entry already at that key), and the returned handle shares the new cell
and slot. -/
def Transaction.create (ty : TypeInfo) (obj : List Value)
    (prep : Except Error Unit) (ins : Except Error Int) (s : TxState) :
    Except Error Tx × TxState :=
  match prep with
  | .error e => (.error e, s)
  | .ok _ =>
    match ins with
    | .error e => (.error e, s)
    | .ok id =>
      let cellId := s.cells.length
      let slotId := s.slots.length
      (.ok ⟨id, cellId, slotId⟩,
        { slots := s.slots ++ [⟨ty.schema, obj⟩]
          cells := s.cells ++ [.Clean]
          locks := s.locks ++ [.free]
          cache := insertCache (ty.tag, id) ⟨cellId, slotId⟩ s.cache })

/-- Model of `Transaction::get`.  `prep` is the `ensure_table` outcome and
`sel` the result `select_row` would produce on a cache miss (the row, which
`T::from_row` decodes into the stored object).  A hit reuses the entry; a
miss on a successful select installs a fresh `Clean` entry.  The `Removed`
check runs on the resulting entry; a fresh `Clean` entry always passes it,
so only a hit can fail with `NotFound{id, type_name}`, and it leaves the
cache untouched. -/
def Transaction.get (ty : TypeInfo) (id : Int)
    (prep : Except Error Unit) (sel : Except Error (List Value)) (s : TxState) :
    Except Error Tx × TxState :=
  match prep with
  | .error e => (.error e, s)
  | .ok _ =>
    match lookupCache s.cache (ty.tag, id) with
    | some cv =>
      if s.cells.getD cv.cellId .Clean = .Removed then
        (.error (Error.NotFound id ty.schema.type_name), s)
      else (.ok ⟨id, cv.cellId, cv.slotId⟩, s)
    | none =>
      match sel with
      | .error e => (.error e, s)
      | .ok row =>
        let cellId := s.cells.length
        let slotId := s.slots.length
        (.ok ⟨id, cellId, slotId⟩,
          { slots := s.slots ++ [⟨ty.schema, row⟩]
            cells := s.cells ++ [.Clean]
            locks := s.locks ++ [.free]
            cache := insertCache (ty.tag, id) ⟨cellId, slotId⟩ s.cache })

/-- Model of `Tx::borrow`: panic (`none`) on a `Removed` entry, as the
explicit state check runs first; then `RefCell::borrow` panics if the slot
is mutably borrowed; otherwise yield the view and register one more
reader.  The state cell is not written. -/
def Tx.borrow (h : Tx) (s : TxState) : Option (StoredObj × TxState) :=
  if h.state s = .Removed then none
  else
    match s.locks.getD h.slotId .free with
    | .writing => none
    | .free => some (s.slots.getD h.slotId default,
        { s with locks := s.locks.set h.slotId (.reading 1) })
    | .reading n => some (s.slots.getD h.slotId default,
        { s with locks := s.locks.set h.slotId (.reading (n + 1)) })

/-- Model of `Tx::borrow_mut`: panic (`none`) on a `Removed` entry; the
source then sets the shared state cell to `Modified` before taking the
`RefCell` mutable borrow, which panics if any borrow is live — a panic
tears the process down, so the cell write preceding a panic is
unobservable and the panicking path is plain `none` here; on success the
view is yielded with the cell set to `Modified`. -/
def Tx.borrow_mut (h : Tx) (s : TxState) : Option (StoredObj × TxState) :=
  if h.state s = .Removed then none
  else
    match s.locks.getD h.slotId .free with
    | .free => some (s.slots.getD h.slotId default,
        { s with cells := s.cells.set h.cellId .Modified,
                 locks := s.locks.set h.slotId .writing })
    | _ => none

/-- Model of `Tx::delete`: `try_borrow_mut` on the slot fails exactly when
a borrow is live (panic, `none`); otherwise the shared state cell is set to
`Removed`.  The current `ObjectState` is not consulted. -/
def Tx.delete (h : Tx) (s : TxState) : Option TxState :=
  match s.locks.getD h.slotId .free with
  | .free => some { s with cells := s.cells.set h.cellId .Removed }
  | _ => none

/-- A mutation performed through a live `RefMut` view: overwrite the row
stored in the slot (the object's schema is fixed by its type). -/
def writeSlot (i : Nat) (row : List Value) (s : TxState) : TxState :=
  { s with slots := s.slots.set i { s.slots.getD i default with row := row } }

/-- The object slot a handle views. -/
def readSlot (h : Tx) (s : TxState) : StoredObj := s.slots.getD h.slotId default

/-- Dropping a `Ref` guard releases one reader. -/
def dropRead (i : Nat) (s : TxState) : TxState :=
  match s.locks.getD i .free with
  | .reading (n + 1) =>
    { s with locks := s.locks.set i (if n = 0 then .free else .reading n) }
  | _ => s

/-- Dropping a `RefMut` guard releases the writer. -/
def dropWrite (i : Nat) (s : TxState) : TxState :=
  match s.locks.getD i .free with
  | .writing => { s with locks := s.locks.set i .free }
  | _ => s

/-- One backend write call issued by the flush pass, or the final
`storage.commit()`. -/
inductive BCall
  | update (id : Int) (schema : Schema) (row : List Value)
  | deleteRow (id : Int) (schema : Schema)
  | commitCall
deriving DecidableEq

/-- The backend calls `try_apply` issues for one cache entry: the key gives
the id, the slot's object gives `obj.schema()` and `obj.as_row()`;
`Modified` issues exactly one `update_row`, `Removed` exactly one
`delete_row`, `Clean` nothing. -/
def entryCalls (s : TxState) (e : CacheKey × CacheValue) : List BCall :=
  match s.cells.getD e.2.cellId .Clean with
  | .Modified => [.update e.1.2 (s.slots.getD e.2.slotId default).schema
      (s.slots.getD e.2.slotId default).row]
  | .Removed => [.deleteRow e.1.2 (s.slots.getD e.2.slotId default).schema]
  | .Clean => []

/-- The full flush trace of a state: one pass over the cache, no failures. -/
def flushCalls (s : TxState) : List BCall := s.cache.flatMap (entryCalls s)

/-- Model of `Transaction::try_apply` over a list of cache entries, with
`fail` giving the backend outcome of each issued write (`none` = success).
Returns the trace of issued calls and the outcome; the `?` operator aborts
the pass at the first failing write, which is still in the trace because
that call was issued before it returned the error. -/
def tryApplyGo (fail : BCall → Option Error) (s : TxState) :
    List (CacheKey × CacheValue) → List BCall × Except Error Unit
  | [] => ([], .ok ())
  | e :: rest =>
    match entryCalls s e with
    | [] => tryApplyGo fail s rest
    | c :: _ =>
      match fail c with
      | some err => ([c], .error err)
      | none =>
        let t := tryApplyGo fail s rest
        (c :: t.1, t.2)

/-- Model of `Transaction::try_apply`: one pass over the whole cache; the
map is only read. -/
def Transaction.tryApply (fail : BCall → Option Error) (s : TxState) :
    List BCall × Except Error Unit :=
  tryApplyGo fail s s.cache

/-- Model of `Transaction::commit`: `self.try_apply()?` then
`self.inner.commit()` (whose outcome is `cres`); a flush failure surfaces
and the backend `COMMIT` is not issued. -/
def Transaction.commit (fail : BCall → Option Error)
    (cres : Except Error Unit) (s : TxState) : List BCall × Except Error Unit :=
  match Transaction.tryApply fail s with
  | (t, .error e) => (t, .error e)
  | (t, .ok _) => (t ++ [.commitCall], cres)

/-- One user-level operation on a transaction, carrying the backend
oracles it consumes. -/
inductive Op
  | create (ty : TypeInfo) (obj : List Value)
      (prep : Except Error Unit) (ins : Except Error Int)
  | get (ty : TypeInfo) (id : Int)
      (prep : Except Error Unit) (sel : Except Error (List Value))
  | borrow (h : Tx)
  | borrow_mut (h : Tx)
  | delete (h : Tx)
  | write (slotId : Nat) (row : List Value)
  | dropRead (slotId : Nat)
  | dropWrite (slotId : Nat)

/-- Small-step semantics of one operation; `none` is a panic (the process
is torn down).  Recoverable errors returned by `create`/`get` leave the
state those functions return and the program continues. -/
def step (s : TxState) : Op → Option TxState
  | .create ty obj prep ins => some (Transaction.create ty obj prep ins s).2
  | .get ty id prep sel => some (Transaction.get ty id prep sel s).2
  | .borrow h => (h.borrow s).map Prod.snd
  | .borrow_mut h => (h.borrow_mut s).map Prod.snd
  | .delete h => h.delete s
  | .write i row => some (writeSlot i row s)
  | .dropRead i => some (dropRead i s)
  | .dropWrite i => some (dropWrite i s)

/-- Run a sequence of operations from a state. -/
def run (s : TxState) : List Op → Option TxState
  | [] => some s
  | op :: ops => (step s op).bind (fun s' => run s' ops)

/-- A tiny concrete schema (the spec's `User{age: i64}` example), used by
the concrete evaluations below. -/
def userSchema : Schema := ⟨"User", "User", [⟨"age", "age", DataType.Int64⟩]⟩

/-- Type data of the concrete persistable type. -/
def userTy : TypeInfo := ⟨7, userSchema⟩

/-! ### Theorems -/

/-- Per-scalar codec round trip, used field-wise by the row round trip. -/
theorem fromValueAt_toValue (x : Scalar) :
    fromValueAt x.dataType x.toValue = some x := by
  cases x <;> rfl

/-- C8.  Codec round-trip: for every value of each built-in scalar attribute
type, `from_value(as_value(x)) = x`; consequently the derived row codec
satisfies `from_row(to_row(x)) = x` field-wise for any persistable object
(modelled as its list of typed field values). -/
theorem c8_codec_roundtrip :
    (∀ s : String, fromValueString (asValueString s) = some s) ∧
    (∀ b : List Nat, fromValueBytes (asValueBytes b) = some b) ∧
    (∀ x : Int, fromValueInt64 (asValueInt64 x) = some x) ∧
    (∀ bits : Nat, fromValueFloat64 (asValueFloat64 bits) = some bits) ∧
    (∀ b : Bool, fromValueBool (asValueBool b) = some b) ∧
    (∀ xs : List Scalar, fromRow (xs.map Scalar.dataType) (toRow xs) = some xs) := by
  refine ⟨fun _ => rfl, fun _ => rfl, fun _ => rfl, fun _ => rfl, fun _ => rfl, ?_⟩
  intro xs
  induction xs with
  | nil => rfl
  | cons x xs ih =>
    simp [toRow] at ih ⊢
    rw [fromRow, fromValueAt_toValue, ih]

/-- Containment is antitone in the pattern: if `p` is a prefix of `q` and
`q` occurs in `s`, then `p` occurs in `s`. -/
theorem containsSub_of_prefix {p q : List Char} (hpq : p.isPrefixOf q) :
    ∀ {s : List Char}, containsSub q s → containsSub p s := by
  intro s
  induction s with
  | nil =>
    intro h
    simp only [containsSub, findSub] at h ⊢
    rcases q with _ | ⟨c, q⟩
    · have : p = [] := by
        cases p with
        | nil => rfl
        | cons a l => simp [List.isPrefixOf] at hpq
      simp [this]
    · simp at h
  | cons c rest ih =>
    intro h
    simp only [containsSub, findSub] at h ⊢
    by_cases hq : q.isPrefixOf (c :: rest)
    · have hp : p.isPrefixOf (c :: rest) := by
        rw [List.isPrefixOf_iff_prefix] at hpq hq ⊢
        exact hpq.trans hq
      simp [hp]
    · simp only [hq, if_false, Bool.false_eq_true, Option.isSome_map] at h
      have := ih (by simpa [containsSub, Option.isSome_map] using h)
      simp only [containsSub] at this
      by_cases hp : p.isPrefixOf (c :: rest)
      · simp [hp]
      · simp [hp, this]

/-! Helper lemmas about list heaps and the association-list cache. -/

theorem getD_snoc_length {α : Type} (l : List α) (a d : α) :
    (l ++ [a]).getD l.length d = a := by
  simp [List.getD_eq_getElem?_getD, List.getElem?_concat_length]

theorem getD_append_lt {α : Type} {l l' : List α} {d : α} {n : Nat}
    (h : n < l.length) : (l ++ l').getD n d = l.getD n d :=
  List.getD_append l l' d n h

theorem getD_set_self {α : Type} {l : List α} {i : Nat} {a d : α}
    (h : i < l.length) : (l.set i a).getD i d = a := by
  simp [List.getD_eq_getElem?_getD, List.getElem?_set_self h]

theorem getD_set_ne {α : Type} {l : List α} {i j : Nat} {a d : α}
    (h : i ≠ j) : (l.set i a).getD j d = l.getD j d := by
  simp [List.getD_eq_getElem?_getD, List.getElem?_set_ne h]

theorem lookupCache_mem {c : List (CacheKey × CacheValue)} {k : CacheKey}
    {v : CacheValue} (h : lookupCache c k = some v) : (k, v) ∈ c := by
  induction c with
  | nil => simp [lookupCache] at h
  | cons e rest ih =>
    obtain ⟨k', v'⟩ := e
    rw [lookupCache] at h
    by_cases hk : k' = k
    · simp only [hk, if_true] at h
      obtain rfl : v' = v := by injection h
      subst hk
      exact List.mem_cons_self _ _
    · simp only [hk, if_false] at h
      exact List.mem_cons_of_mem _ (ih h)

theorem lookupCache_insert_self (c : List (CacheKey × CacheValue))
    (k : CacheKey) (v : CacheValue) :
    lookupCache (insertCache k v c) k = some v := by
  induction c with
  | nil => simp [insertCache, lookupCache]
  | cons e rest ih =>
    obtain ⟨k', v'⟩ := e
    rw [insertCache]
    by_cases hk : k' = k
    · simp [hk, lookupCache]
    · simp only [hk, if_false]
      rw [lookupCache, if_neg hk]
      exact ih

theorem mem_insertCache {c : List (CacheKey × CacheValue)} {k : CacheKey}
    {v : CacheValue} {e : CacheKey × CacheValue}
    (h : e ∈ insertCache k v c) : e = (k, v) ∨ e ∈ c := by
  induction c with
  | nil => simpa [insertCache] using h
  | cons e' rest ih =>
    obtain ⟨k', v'⟩ := e'
    rw [insertCache] at h
    by_cases hk : k' = k
    · simp only [hk, if_true] at h
      rcases List.mem_cons.mp h with h | h
      · exact Or.inl h
      · exact Or.inr (List.mem_cons_of_mem _ h)
    · simp only [hk, if_false] at h
      rcases List.mem_cons.mp h with h | h
      · exact Or.inr (h ▸ List.mem_cons_self _ _)
      · rcases ih h with h | h
        · exact Or.inl h
        · exact Or.inr (List.mem_cons_of_mem _ h)

theorem key_mem_insertCache {c : List (CacheKey × CacheValue)} {k : CacheKey}
    {v : CacheValue} {key : CacheKey}
    (h : key ∈ (insertCache k v c).map Prod.fst) :
    key = k ∨ key ∈ c.map Prod.fst := by
  rcases List.mem_map.mp h with ⟨e, he, rfl⟩
  rcases mem_insertCache he with rfl | he'
  · exact Or.inl rfl
  · exact Or.inr (List.mem_map_of_mem _ he')

theorem nodup_keys_insertCache {c : List (CacheKey × CacheValue)}
    {k : CacheKey} {v : CacheValue} (h : (c.map Prod.fst).Nodup) :
    ((insertCache k v c).map Prod.fst).Nodup := by
  induction c with
  | nil => simp [insertCache]
  | cons e rest ih =>
    obtain ⟨k', v'⟩ := e
    rw [insertCache]
    by_cases hk : k' = k
    · subst hk
      simpa using h
    · simp only [hk, if_false, List.map_cons, List.nodup_cons] at h ⊢
      refine ⟨fun hmem => ?_, ih h.2⟩
      rcases key_mem_insertCache hmem with rfl | hmem'
      · exact hk rfl
      · exact h.1 hmem'

/-- C3.  Removed shadowing: when the cache entry for `(T, id)` is in state
`Removed`, `get::<T>(id)` (with a successful `ensure_table`) fails with
`NotFound{id, type_name}` and leaves the transaction state untouched,
whatever row the backend would return — the pending deletion shadows the
backend row even though no DELETE has been issued yet. -/
theorem c3_removed_shadowing (s : TxState) (ty : TypeInfo) (id : Int)
    (cv : CacheValue) (sel : Except Error (List Value))
    (hhit : lookupCache s.cache (ty.tag, id) = some cv)
    (hrem : s.cells.getD cv.cellId .Clean = .Removed) :
    Transaction.get ty id (.ok ()) sel s =
      (.error (Error.NotFound id ty.schema.type_name), s) := by
  rw [List.getD_eq_getElem?_getD] at hrem
  simp [Transaction.get, hhit, hrem]

/-- Concrete instance of `c3_removed_shadowing`: a one-entry cache whose
entry is `Removed`; `get` fails with `NotFound` even though the backend
would happily return a row. -/
theorem c3_witness :
    Transaction.get userTy 1 (.ok ()) (.ok [Value.Int64 36])
        ⟨[⟨userSchema, [Value.Int64 36]⟩], [.Removed], [.free], [((7, 1), ⟨0, 0⟩)]⟩ =
      (.error (Error.NotFound 1 "User"),
        ⟨[⟨userSchema, [Value.Int64 36]⟩], [.Removed], [.free], [((7, 1), ⟨0, 0⟩)]⟩) :=
  c3_removed_shadowing _ userTy 1 ⟨0, 0⟩ _ (by rfl) (by rfl)

/-- C9.  Cache-miss `get` is atomic on error: with no cache entry for
`(T, id)`, a failing `select_row` makes `get` return exactly that error
with the transaction state — in particular the identity map — unchanged,
and a subsequent `get` for the same key behaves as a fresh miss: it
consults the backend again and installs the newly selected row. -/
theorem c9_get_error_atomic (s : TxState) (ty : TypeInfo) (id : Int)
    (e : Error) (hmiss : lookupCache s.cache (ty.tag, id) = none) :
    Transaction.get ty id (.ok ()) (.error e) s = (.error e, s) ∧
    ∀ row : List Value, ∃ (h : Tx) (s' : TxState),
      Transaction.get ty id (.ok ()) (.ok row) s = (.ok h, s') ∧
      readSlot h s' = ⟨ty.schema, row⟩ := by
  constructor
  · simp [Transaction.get, hmiss]
  · intro row
    refine ⟨⟨id, s.cells.length, s.slots.length⟩,
      ⟨s.slots ++ [⟨ty.schema, row⟩], s.cells ++ [.Clean], s.locks ++ [.free],
        insertCache (ty.tag, id) ⟨s.cells.length, s.slots.length⟩ s.cache⟩, ?_, ?_⟩
    · simp [Transaction.get, hmiss]
    · simp [readSlot, getD_snoc_length]

/-- Concrete instance of `c9_get_error_atomic`: a failed select on an empty
cache surfaces the error and leaves the state (and so the identity map)
empty. -/
theorem c9_witness :
    Transaction.get userTy 1 (.ok ()) (.error Error.LockConflict)
        ⟨[], [], [], []⟩ = (.error Error.LockConflict, ⟨[], [], [], []⟩) :=
  (c9_get_error_atomic ⟨[], [], [], []⟩ userTy 1 Error.LockConflict (by rfl)).1

/-- C10.  `delete()` checks only for a live borrow: on any handle whose
slot is not borrowed it succeeds (no panic) and sets the shared state cell
to `Removed`, leaving slots, locks and the identity map untouched — in
particular it does not consult the current state, so a second `delete`
through an aliased handle of an already-`Removed` entry also succeeds and
leaves the state `Removed`. -/
theorem c10_delete_checks_only_borrow (h : Tx) (s : TxState)
    (hfree : s.locks.getD h.slotId .free = .free)
    (hcell : h.cellId < s.cells.length) :
    ∃ s' : TxState, h.delete s = some s' ∧ h.state s' = .Removed ∧
      s'.slots = s.slots ∧ s'.locks = s.locks ∧ s'.cache = s.cache := by
  rw [List.getD_eq_getElem?_getD] at hfree
  refine ⟨{ s with cells := s.cells.set h.cellId .Removed },
    by simp [Tx.delete, hfree], ?_, rfl, rfl, rfl⟩
  simp [Tx.state, List.getElem?_set_self hcell]

/-- Concrete instance of `c10_delete_checks_only_borrow`: the entry is
already `Removed` (a clone of the handle deleted it first); the second
`delete` does not panic and the state stays `Removed`. -/
theorem c10_witness :
    ∃ s' : TxState,
      Tx.delete ⟨1, 0, 0⟩
          ⟨[⟨userSchema, [Value.Int64 36]⟩], [.Removed], [.free], [((7, 1), ⟨0, 0⟩)]⟩ =
        some s' ∧
      Tx.state ⟨1, 0, 0⟩ s' = .Removed ∧
      s'.slots = [⟨userSchema, [Value.Int64 36]⟩] ∧
      s'.locks = [.free] ∧
      s'.cache = [((7, 1), ⟨0, 0⟩)] :=
  c10_delete_checks_only_borrow ⟨1, 0, 0⟩ _ (by rfl) (by decide)

/-- C5.  Handle borrow effects on state: `borrow()` on a non-`Removed`
entry yields a view and leaves every state cell unchanged; `borrow_mut()`
on a non-`Removed` entry (with the slot's dynamic borrow flag free) yields
a view having already set the shared state cell to `Modified` — even if the
caller never writes through the view; on a `Removed` entry both panic
(`none`), whatever the borrow flag. -/
theorem c5_borrow_effects (h : Tx) (s : TxState) :
    (h.state s ≠ .Removed → s.locks.getD h.slotId .free ≠ .writing →
      ∃ (view : StoredObj) (s' : TxState),
        h.borrow s = some (view, s') ∧ s'.cells = s.cells) ∧
    (h.state s ≠ .Removed → s.locks.getD h.slotId .free = .free →
      h.cellId < s.cells.length →
      ∃ (view : StoredObj) (s' : TxState),
        h.borrow_mut s = some (view, s') ∧ h.state s' = .Modified) ∧
    (h.state s = .Removed → h.borrow s = none ∧ h.borrow_mut s = none) := by
  refine ⟨?_, ?_, ?_⟩
  · intro hrm hw
    rw [Tx.borrow, if_neg hrm]
    cases hlock : s.locks.getD h.slotId LockSt.free with
    | free => exact ⟨_, _, rfl, rfl⟩
    | reading n => exact ⟨_, _, rfl, rfl⟩
    | writing => exact absurd hlock hw
  · intro hrm hfree hcell
    refine ⟨s.slots.getD h.slotId default,
      { s with cells := s.cells.set h.cellId .Modified,
               locks := s.locks.set h.slotId .writing }, ?_, ?_⟩
    · rw [Tx.borrow_mut, if_neg hrm, hfree]
    · simp [Tx.state, List.getElem?_set_self hcell]
  · intro hrm
    constructor
    · rw [Tx.borrow, if_pos hrm]
    · rw [Tx.borrow_mut, if_pos hrm]

/-- Concrete instance of `c5_borrow_effects`: on a `Clean` unborrowed entry
`borrow` keeps all cells unchanged and `borrow_mut` yields a view with the
cell already `Modified`; on a `Removed` entry both panic. -/
theorem c5_witness :
    (∃ (view : StoredObj) (s' : TxState),
      Tx.borrow ⟨1, 0, 0⟩
          ⟨[⟨userSchema, [Value.Int64 36]⟩], [.Clean], [.free], [((7, 1), ⟨0, 0⟩)]⟩ =
        some (view, s') ∧
      s'.cells = [ObjectState.Clean]) ∧
    (∃ (view : StoredObj) (s' : TxState),
      Tx.borrow_mut ⟨1, 0, 0⟩
          ⟨[⟨userSchema, [Value.Int64 36]⟩], [.Clean], [.free], [((7, 1), ⟨0, 0⟩)]⟩ =
        some (view, s') ∧
      Tx.state ⟨1, 0, 0⟩ s' = .Modified) ∧
    (Tx.borrow ⟨1, 0, 0⟩
        ⟨[⟨userSchema, [Value.Int64 36]⟩], [.Removed], [.free], [((7, 1), ⟨0, 0⟩)]⟩ =
      none ∧
     Tx.borrow_mut ⟨1, 0, 0⟩
        ⟨[⟨userSchema, [Value.Int64 36]⟩], [.Removed], [.free], [((7, 1), ⟨0, 0⟩)]⟩ =
      none) :=
  ⟨(c5_borrow_effects ⟨1, 0, 0⟩ _).1 (by decide) (by decide),
   (c5_borrow_effects ⟨1, 0, 0⟩
      ⟨[⟨userSchema, [Value.Int64 36]⟩], [.Clean], [.free], [((7, 1), ⟨0, 0⟩)]⟩).2.1
     (by decide) (by decide) (by decide),
   (c5_borrow_effects ⟨1, 0, 0⟩
      ⟨[⟨userSchema, [Value.Int64 36]⟩], [.Removed], [.free], [((7, 1), ⟨0, 0⟩)]⟩).2.2
     (by decide)⟩

/-- C6.  Create initial state: a successful `create` (the backend INSERT
having succeeded and produced the id) installs a cache entry whose shared
state cell is `Clean`, sharing cell and slot with the returned handle,
which therefore reports `state() == Clean`; a first (cache-miss) `get`
installs its entry in state `Clean` likewise. -/
theorem c6_create_clean :
    (∀ (ty : TypeInfo) (obj : List Value) (idv : Int) (s : TxState)
        (h : Tx) (s' : TxState),
      Transaction.create ty obj (.ok ()) (.ok idv) s = (.ok h, s') →
      h.state s' = .Clean ∧
      lookupCache s'.cache (ty.tag, idv) = some ⟨h.cellId, h.slotId⟩) ∧
    (∀ (ty : TypeInfo) (idv : Int) (row : List Value) (s : TxState)
        (h : Tx) (s' : TxState),
      lookupCache s.cache (ty.tag, idv) = none →
      Transaction.get ty idv (.ok ()) (.ok row) s = (.ok h, s') →
      h.state s' = .Clean ∧
      lookupCache s'.cache (ty.tag, idv) = some ⟨h.cellId, h.slotId⟩) := by
  constructor
  · intro ty obj idv s h s' hcr
    simp only [Transaction.create, Prod.mk.injEq, Except.ok.injEq] at hcr
    obtain ⟨rfl, rfl⟩ := hcr
    refine ⟨?_, lookupCache_insert_self _ _ _⟩
    simp [Tx.state, getD_snoc_length]
  · intro ty idv row s h s' hmiss hget
    simp only [Transaction.get, hmiss, Prod.mk.injEq, Except.ok.injEq] at hget
    obtain ⟨rfl, rfl⟩ := hget
    refine ⟨?_, lookupCache_insert_self _ _ _⟩
    simp [Tx.state, getD_snoc_length]

/-- Concrete instance of `c6_create_clean`: a `create` on the empty
transaction state and a cache-miss `get` both install `Clean` entries whose
cell the returned handle shares. -/
theorem c6_witness :
    (Tx.state ⟨1, 0, 0⟩
        (Transaction.create userTy [Value.Int64 36] (.ok ()) (.ok 1)
          ⟨[], [], [], []⟩).2 = .Clean ∧
      lookupCache (Transaction.create userTy [Value.Int64 36] (.ok ()) (.ok 1)
          ⟨[], [], [], []⟩).2.cache (7, 1) = some ⟨0, 0⟩) ∧
    (Tx.state ⟨2, 0, 0⟩
        (Transaction.get userTy 2 (.ok ()) (.ok [Value.Int64 50])
          ⟨[], [], [], []⟩).2 = .Clean ∧
      lookupCache (Transaction.get userTy 2 (.ok ()) (.ok [Value.Int64 50])
          ⟨[], [], [], []⟩).2.cache (7, 2) = some ⟨0, 0⟩) :=
  ⟨c6_create_clean.1 userTy [Value.Int64 36] 1 ⟨[], [], [], []⟩ ⟨1, 0, 0⟩ _ (by rfl),
   c6_create_clean.2 userTy 2 [Value.Int64 50] ⟨[], [], [], []⟩ ⟨2, 0, 0⟩ _
     (by rfl) (by rfl)⟩

theorem commitCall_not_mem_entryCalls (s : TxState) (e : CacheKey × CacheValue) :
    BCall.commitCall ∉ entryCalls s e := by
  unfold entryCalls
  cases s.cells.getD e.2.cellId ObjectState.Clean <;> simp

/-- A failure-free flush pass issues exactly the per-entry calls, in cache
order, and succeeds. -/
theorem tryApplyGo_no_fail (fail : BCall → Option Error) (s : TxState)
    (l : List (CacheKey × CacheValue))
    (hok : ∀ c ∈ l.flatMap (entryCalls s), fail c = none) :
    tryApplyGo fail s l = (l.flatMap (entryCalls s), .ok ()) := by
  induction l with
  | nil => rfl
  | cons e rest ih =>
    have hrest : ∀ c ∈ rest.flatMap (entryCalls s), fail c = none := fun c hc =>
      hok c (by simp only [List.flatMap_cons, List.mem_append]; exact Or.inr hc)
    rw [tryApplyGo]
    cases hst : s.cells.getD e.2.cellId ObjectState.Clean with
    | Clean =>
      have he : entryCalls s e = [] := by unfold entryCalls; rw [hst]
      rw [List.flatMap_cons, he, List.nil_append]
      exact ih hrest
    | Modified =>
      have he : entryCalls s e = [BCall.update e.1.2
          (s.slots.getD e.2.slotId default).schema
          (s.slots.getD e.2.slotId default).row] := by unfold entryCalls; rw [hst]
      have hc : fail (BCall.update e.1.2
          (s.slots.getD e.2.slotId default).schema
          (s.slots.getD e.2.slotId default).row) = none :=
        hok _ (by rw [List.flatMap_cons, he]; exact List.mem_append_left _ (List.mem_singleton_self _))
      rw [List.flatMap_cons, he]
      simp only [hc]
      rw [ih hrest]
      rfl
    | Removed =>
      have he : entryCalls s e = [BCall.deleteRow e.1.2
          (s.slots.getD e.2.slotId default).schema] := by unfold entryCalls; rw [hst]
      have hc : fail (BCall.deleteRow e.1.2
          (s.slots.getD e.2.slotId default).schema) = none :=
        hok _ (by rw [List.flatMap_cons, he]; exact List.mem_append_left _ (List.mem_singleton_self _))
      rw [List.flatMap_cons, he]
      simp only [hc]
      rw [ih hrest]
      rfl

/-- The flush pass never issues the backend `COMMIT`. -/
theorem tryApplyGo_no_commit (fail : BCall → Option Error) (s : TxState)
    (l : List (CacheKey × CacheValue)) :
    BCall.commitCall ∉ (tryApplyGo fail s l).1 := by
  induction l with
  | nil => simp [tryApplyGo]
  | cons e rest ih =>
    rw [tryApplyGo]
    cases hec : entryCalls s e with
    | nil => exact ih
    | cons c cs =>
      have hcne : BCall.commitCall ≠ c := by
        intro hc
        exact commitCall_not_mem_entryCalls s e (hc ▸ hec ▸ List.mem_cons_self c cs)
      cases hf : fail c with
      | some err =>
        simp only [hf]
        simpa using hcne
      | none =>
        simp only [hf]
        intro hmem
        rcases List.mem_cons.mp hmem with hmem | hmem
        · exact hcne hmem
        · exact ih hmem

/-- C2.  Flush fidelity: when every flush write succeeds, `commit` issues
exactly the per-entry backend calls — one `update_row` with the entry's id,
schema and current row per `Modified` entry, one `delete_row` per `Removed`
entry, none for a `Clean` entry (`flushCalls` is the flat-map of those
per-entry calls over the cache) — followed by the backend `COMMIT` whose
outcome is the commit's result; and when the flush pass fails, the error is
surfaced as is and the trace contains no backend `COMMIT`. -/
theorem c2_flush_fidelity (s : TxState) (fail : BCall → Option Error)
    (cres : Except Error Unit) :
    ((∀ c ∈ flushCalls s, fail c = none) →
      Transaction.commit fail cres s = (flushCalls s ++ [BCall.commitCall], cres)) ∧
    (∀ (t : List BCall) (e : Error),
      Transaction.tryApply fail s = (t, .error e) →
      Transaction.commit fail cres s = (t, .error e) ∧ BCall.commitCall ∉ t) := by
  constructor
  · intro hok
    unfold Transaction.commit Transaction.tryApply
    rw [tryApplyGo_no_fail fail s s.cache hok]
    rfl
  · intro t e happ
    unfold Transaction.commit
    rw [happ]
    refine ⟨rfl, ?_⟩
    have h1 : (Transaction.tryApply fail s).1 = t := congrArg Prod.fst happ
    exact h1 ▸ tryApplyGo_no_commit fail s s.cache

/-- Concrete instance of `c2_flush_fidelity`: a cache holding one
`Modified`, one `Removed` and one `Clean` entry commits with exactly one
UPDATE, one DELETE, no write for the `Clean` entry, then the backend
COMMIT. -/
theorem c2_witness :
    Transaction.commit (fun _ => none) (.ok ())
        ⟨[⟨userSchema, [Value.Int64 37]⟩, ⟨userSchema, [Value.Int64 9]⟩,
          ⟨userSchema, [Value.Int64 5]⟩],
         [.Modified, .Removed, .Clean], [.free, .free, .free],
         [((7, 1), ⟨0, 0⟩), ((7, 2), ⟨1, 1⟩), ((7, 3), ⟨2, 2⟩)]⟩ =
      ([BCall.update 1 userSchema [Value.Int64 37], BCall.deleteRow 2 userSchema,
        BCall.commitCall], .ok ()) :=
  (c2_flush_fidelity
    ⟨[⟨userSchema, [Value.Int64 37]⟩, ⟨userSchema, [Value.Int64 9]⟩,
      ⟨userSchema, [Value.Int64 5]⟩],
     [.Modified, .Removed, .Clean], [.free, .free, .free],
     [((7, 1), ⟨0, 0⟩), ((7, 2), ⟨1, 1⟩), ((7, 3), ⟨2, 2⟩)]⟩
    (fun _ => none) (.ok ())).1 (fun _ _ => rfl)

/-- C7, counterexample to the claim as stated: the busy arm of the mapper
is tried first, so a backend error reporting `DatabaseBusy` whose
diagnostic text matches the missing-column phrasing is mapped to
`LockConflict`, not to the `MissingColumn` value the claim requires. -/
theorem c7_counterexample :
    errorFromCtx
        (.SqliteFailure .DatabaseBusy (some ("no such column: age".toList)))
        ⟨some userSchema, none⟩ = some Error.LockConflict ∧
    errorFromCtx
        (.SqliteFailure .DatabaseBusy (some ("no such column: age".toList)))
        ⟨some userSchema, none⟩ ≠
      some (Error.MissingColumn "User" "age" "User" "age") :=
  ⟨rfl, by decide⟩

/-- C7, amended.  Missing-column mapping: for every backend error that does
not report `DatabaseBusy` and whose diagnostic text matches one of the two
well-known missing-column phrasings, given an error context carrying a
schema, the mapper parses the offending column name out of the diagnostic
(the text after the matched phrase), looks it up in the schema's field
list, and emits `MissingColumn{type_name, attr_name, table_name,
column_name}` with names taken from the schema and the matching field; a
parsed column name matching no field falls back to the synthetic `id`
field descriptor `(attr "id", column "id", Int64)`. -/
theorem c7_missing_column_mapping (code : ErrorCode) (text : List Char)
    (ctx : ErrorCtx) (schema : Schema)
    (hcode : code ≠ ErrorCode.DatabaseBusy)
    (hctx : ctx.schema = some schema)
    (hmatch : containsSub ("no such column: ".toList) text = true ∨
      containsSub ("has no column named ".toList) text = true) :
    ∃ name : List Char,
      extractColumnName text = some name ∧
      errorFromCtx (.SqliteFailure code (some text)) ctx =
        some (Error.MissingColumn schema.type_name
          (getFieldByName schema (String.mk name)).attr_name
          schema.table_name
          (getFieldByName schema (String.mk name)).column_name) ∧
      (schema.fields.find? (fun f => f.column_name = String.mk name) = none →
        getFieldByName schema (String.mk name) = ⟨"id", "id", DataType.Int64⟩) := by
  have hguard : missingColumnGuard text = true := by
    unfold missingColumnGuard
    rcases hmatch with h | h
    · have hp := containsSub_of_prefix (p := "no such column:".toList)
        (q := "no such column: ".toList) (by decide) h
      rw [Bool.or_eq_true]
      exact Or.inl (by simpa using hp)
    · have hp := containsSub_of_prefix (p := "has no column named".toList)
        (q := "has no column named ".toList) (by decide) h
      rw [Bool.or_eq_true]
      exact Or.inr (by simpa using hp)
  obtain ⟨name, hname⟩ : ∃ name, extractColumnName text = some name := by
    unfold extractColumnName
    cases hf : findSub ("no such column: ".toList) text with
    | some i => exact ⟨_, rfl⟩
    | none =>
      rcases hmatch with h | h
      · rw [containsSub, hf] at h
        simp at h
      · rw [containsSub] at h
        cases hg : findSub ("has no column named ".toList) text with
        | some j => exact ⟨_, rfl⟩
        | none =>
          rw [hg] at h
          simp at h
  obtain ⟨n, rfl⟩ : ∃ n, code = ErrorCode.OtherCode n := by
    cases code with
    | DatabaseBusy => exact absurd rfl hcode
    | OtherCode n => exact ⟨n, rfl⟩
  refine ⟨name, hname, ?_, ?_⟩
  · unfold errorFromCtx
    simp only [hguard, if_true, hname, hctx]
  · intro hnone
    unfold getFieldByName
    rw [hnone]

/-- Concrete instance of `c7_missing_column_mapping`: the second well-known
phrasing, produced by a non-busy failure, maps to `MissingColumn` built
from the parsed column name looked up in the schema. -/
theorem c7_witness :
    ∃ name : List Char,
      extractColumnName ("table User has no column named age".toList) = some name ∧
      errorFromCtx
          (.SqliteFailure (.OtherCode 1)
            (some ("table User has no column named age".toList)))
          ⟨some userSchema, none⟩ =
        some (Error.MissingColumn userSchema.type_name
          (getFieldByName userSchema (String.mk name)).attr_name
          userSchema.table_name
          (getFieldByName userSchema (String.mk name)).column_name) ∧
      (userSchema.fields.find? (fun f => f.column_name = String.mk name) = none →
        getFieldByName userSchema (String.mk name) = ⟨"id", "id", DataType.Int64⟩) :=
  c7_missing_column_mapping (.OtherCode 1) ("table User has no column named age".toList)
    ⟨some userSchema, none⟩ userSchema (by decide) rfl (Or.inr (by decide))

/-! Helper lemmas for state monotonicity. -/

theorem stateLe_refl (a : ObjectState) : stateLe a a := Nat.le_refl _

theorem stateLe_trans {a b c : ObjectState} (h1 : stateLe a b)
    (h2 : stateLe b c) : stateLe a c := Nat.le_trans h1 h2

theorem stateLe_removed (a : ObjectState) : stateLe a .Removed := by
  cases a <;> decide

theorem removed_of_stateLe {b : ObjectState} (h : stateLe .Removed b) :
    b = .Removed := by
  cases b <;> first | rfl | exact absurd h (by decide)

theorem stateLe_getD_snoc {cells : List ObjectState} {c : Nat}
    (hc : c < cells.length) (a : ObjectState) :
    stateLe (cells.getD c .Clean) ((cells ++ [a]).getD c .Clean) := by
  rw [getD_append_lt hc]
  exact stateLe_refl _

theorem stateLe_getD_set_removed {cells : List ObjectState} {i c : Nat}
    (hc : c < cells.length) :
    stateLe (cells.getD c .Clean) ((cells.set i .Removed).getD c .Clean) := by
  by_cases hci : i = c
  · subst hci
    rw [getD_set_self hc]
    exact stateLe_removed _
  · rw [getD_set_ne hci]
    exact stateLe_refl _

theorem stateLe_getD_set_modified {cells : List ObjectState} {i c : Nat}
    (hne : cells.getD i .Clean ≠ .Removed) (hc : c < cells.length) :
    stateLe (cells.getD c .Clean) ((cells.set i .Modified).getD c .Clean) := by
  by_cases hci : i = c
  · subst hci
    rw [getD_set_self hc]
    rcases hval : cells.getD i .Clean with _ | _ | _
    · decide
    · decide
    · exact absurd hval hne
  · rw [getD_set_ne hci]
    exact stateLe_refl _

theorem create_snd_cells (ty : TypeInfo) (obj : List Value)
    (prep : Except Error Unit) (ins : Except Error Int) (s : TxState) :
    (Transaction.create ty obj prep ins s).2.cells = s.cells ∨
    (Transaction.create ty obj prep ins s).2.cells = s.cells ++ [.Clean] := by
  cases prep with
  | error e => exact Or.inl rfl
  | ok u =>
    cases ins with
    | error e => exact Or.inl rfl
    | ok idv => exact Or.inr rfl

theorem get_snd_cells (ty : TypeInfo) (idv : Int)
    (prep : Except Error Unit) (sel : Except Error (List Value)) (s : TxState) :
    (Transaction.get ty idv prep sel s).2.cells = s.cells ∨
    (Transaction.get ty idv prep sel s).2.cells = s.cells ++ [.Clean] := by
  cases prep with
  | error e => exact Or.inl rfl
  | ok u =>
    cases hl : lookupCache s.cache (ty.tag, idv) with
    | some cv =>
      by_cases hrem : s.cells.getD cv.cellId .Clean = .Removed
      · rw [List.getD_eq_getElem?_getD] at hrem
        simp [Transaction.get, hl, hrem]
      · rw [List.getD_eq_getElem?_getD] at hrem
        simp [Transaction.get, hl, hrem]
    | none =>
      cases sel with
      | error e => simp [Transaction.get, hl]
      | ok row => simp [Transaction.get, hl]

theorem borrow_some {h0 : Tx} {s : TxState} {v : StoredObj} {s2 : TxState}
    (hb : h0.borrow s = some (v, s2)) :
    s2.slots = s.slots ∧ s2.cells = s.cells ∧ s2.cache = s.cache := by
  by_cases hrm : h0.state s = .Removed
  · rw [Tx.borrow, if_pos hrm] at hb
    cases hb
  · rw [Tx.borrow, if_neg hrm] at hb
    cases hlock : s.locks.getD h0.slotId LockSt.free with
    | free =>
      rw [hlock] at hb
      simp only [Option.some.injEq, Prod.mk.injEq] at hb
      refine ⟨?_, ?_, ?_⟩ <;> rw [← hb.2]
    | reading n =>
      rw [hlock] at hb
      simp only [Option.some.injEq, Prod.mk.injEq] at hb
      refine ⟨?_, ?_, ?_⟩ <;> rw [← hb.2]
    | writing =>
      rw [hlock] at hb
      cases hb

theorem borrow_mut_some {h0 : Tx} {s : TxState} {v : StoredObj} {s2 : TxState}
    (hb : h0.borrow_mut s = some (v, s2)) :
    h0.state s ≠ .Removed ∧ s2.slots = s.slots ∧
      s2.cells = s.cells.set h0.cellId .Modified ∧ s2.cache = s.cache := by
  by_cases hrm : h0.state s = .Removed
  · rw [Tx.borrow_mut, if_pos hrm] at hb
    cases hb
  · rw [Tx.borrow_mut, if_neg hrm] at hb
    refine ⟨hrm, ?_⟩
    cases hlock : s.locks.getD h0.slotId LockSt.free with
    | free =>
      rw [hlock] at hb
      simp only [Option.some.injEq, Prod.mk.injEq] at hb
      refine ⟨?_, ?_, ?_⟩ <;> rw [← hb.2]
    | reading n =>
      rw [hlock] at hb
      cases hb
    | writing =>
      rw [hlock] at hb
      cases hb

theorem delete_some {h0 : Tx} {s s2 : TxState}
    (hd : h0.delete s = some s2) :
    s2.slots = s.slots ∧ s2.cells = s.cells.set h0.cellId .Removed ∧
      s2.cache = s.cache := by
  rw [Tx.delete] at hd
  cases hlock : s.locks.getD h0.slotId LockSt.free with
  | free =>
    rw [hlock] at hd
    injection hd with hd
    refine ⟨?_, ?_, ?_⟩ <;> rw [← hd]
  | reading n =>
    rw [hlock] at hd
    cases hd
  | writing =>
    rw [hlock] at hd
    cases hd

theorem dropRead_frame (i : Nat) (s : TxState) :
    (dropRead i s).slots = s.slots ∧ (dropRead i s).cells = s.cells ∧
      (dropRead i s).cache = s.cache := by
  rw [dropRead]
  cases s.locks.getD i LockSt.free with
  | free => exact ⟨rfl, rfl, rfl⟩
  | writing => exact ⟨rfl, rfl, rfl⟩
  | reading n => cases n <;> exact ⟨rfl, rfl, rfl⟩

theorem dropWrite_frame (i : Nat) (s : TxState) :
    (dropWrite i s).slots = s.slots ∧ (dropWrite i s).cells = s.cells ∧
      (dropWrite i s).cache = s.cache := by
  rw [dropWrite]
  cases s.locks.getD i LockSt.free with
  | free => exact ⟨rfl, rfl, rfl⟩
  | writing => exact ⟨rfl, rfl, rfl⟩
  | reading n => exact ⟨rfl, rfl, rfl⟩

/-- One step never moves any existing state cell backwards along
`Clean -> Modified -> Removed`, and never removes cells. -/
theorem step_mono {s : TxState} {op : Op} {s2 : TxState}
    (h : step s op = some s2) :
    s.cells.length ≤ s2.cells.length ∧
    ∀ c, c < s.cells.length →
      stateLe (s.cells.getD c .Clean) (s2.cells.getD c .Clean) := by
  cases op with
  | create ty obj prep ins =>
    obtain rfl : (Transaction.create ty obj prep ins s).2 = s2 := by
      simpa [step] using h
    rcases create_snd_cells ty obj prep ins s with hc | hc
    · rw [hc]
      exact ⟨Nat.le_refl _, fun c hcc => stateLe_refl _⟩
    · rw [hc]
      refine ⟨by simp, fun c hcc => stateLe_getD_snoc hcc _⟩
  | get ty idv prep sel =>
    obtain rfl : (Transaction.get ty idv prep sel s).2 = s2 := by
      simpa [step] using h
    rcases get_snd_cells ty idv prep sel s with hc | hc
    · rw [hc]
      exact ⟨Nat.le_refl _, fun c hcc => stateLe_refl _⟩
    · rw [hc]
      refine ⟨by simp, fun c hcc => stateLe_getD_snoc hcc _⟩
  | borrow h0 =>
    cases hb : h0.borrow s with
    | none => rw [step, hb] at h; cases h
    | some vs =>
      obtain ⟨v, s1⟩ := vs
      obtain rfl : s1 = s2 := by
        rw [step, hb] at h
        injection h
      rw [(borrow_some hb).2.1]
      exact ⟨Nat.le_refl _, fun c hcc => stateLe_refl _⟩
  | borrow_mut h0 =>
    cases hb : h0.borrow_mut s with
    | none => rw [step, hb] at h; cases h
    | some vs =>
      obtain ⟨v, s1⟩ := vs
      obtain rfl : s1 = s2 := by
        rw [step, hb] at h
        injection h
      obtain ⟨hrm, hslots, hcells, hcache⟩ := borrow_mut_some hb
      rw [hcells]
      refine ⟨by simp, fun c hcc => stateLe_getD_set_modified hrm hcc⟩
  | delete h0 =>
    have hd : h0.delete s = some s2 := h
    rw [(delete_some hd).2.1]
    refine ⟨by simp, fun c hcc => stateLe_getD_set_removed hcc⟩
  | write i row =>
    obtain rfl : writeSlot i row s = s2 := by simpa [step] using h
    exact ⟨Nat.le_refl _, fun c hcc => stateLe_refl _⟩
  | dropRead i =>
    obtain rfl : dropRead i s = s2 := by simpa [step] using h
    rw [(dropRead_frame i s).2.1]
    exact ⟨Nat.le_refl _, fun c hcc => stateLe_refl _⟩
  | dropWrite i =>
    obtain rfl : dropWrite i s = s2 := by simpa [step] using h
    rw [(dropWrite_frame i s).2.1]
    exact ⟨Nat.le_refl _, fun c hcc => stateLe_refl _⟩

/-- Monotonicity extends to whole operation sequences. -/
theorem run_mono {ops : List Op} {s s2 : TxState}
    (h : run s ops = some s2) :
    s.cells.length ≤ s2.cells.length ∧
    ∀ c, c < s.cells.length →
      stateLe (s.cells.getD c .Clean) (s2.cells.getD c .Clean) := by
  induction ops generalizing s with
  | nil =>
    obtain rfl : s = s2 := by simpa [run] using h
    exact ⟨Nat.le_refl _, fun c hc => stateLe_refl _⟩
  | cons op ops ih =>
    rw [run] at h
    cases hst : step s op with
    | none => rw [hst] at h; cases h
    | some s1 =>
      rw [hst] at h
      have h1 := step_mono hst
      have h2 := ih (s := s1) (by simpa using h)
      exact ⟨Nat.le_trans h1.1 h2.1, fun c hc =>
        stateLe_trans (h1.2 c hc) (h2.2 c (Nat.lt_of_lt_of_le hc h1.1))⟩

/-- C4.  State monotonicity: along any sequence of transaction operations
(`create`, `get`, `borrow`, `borrow_mut`, `delete`, together with guard
drops and writes through live views), every state cell that exists at the
start only evolves forwards along `Clean -> Modified -> Removed`, and a
cell that is `Removed` stays `Removed` for ever. -/
theorem c4_state_monotonicity (s : TxState) (ops : List Op) (s2 : TxState)
    (hrun : run s ops = some s2) :
    s.cells.length ≤ s2.cells.length ∧
    (∀ c, c < s.cells.length →
      stateLe (s.cells.getD c .Clean) (s2.cells.getD c .Clean)) ∧
    (∀ c, c < s.cells.length → s.cells.getD c .Clean = .Removed →
      s2.cells.getD c .Clean = .Removed) := by
  obtain ⟨h1, h2⟩ := run_mono hrun
  exact ⟨h1, h2, fun c hc hr => removed_of_stateLe (hr ▸ h2 c hc)⟩

/-- Concrete instance of `c4_state_monotonicity`: a create, a mutable
borrow, a guard drop and a delete march the single cell forwards
`Clean -> Modified -> Removed`. -/
theorem c4_witness :
    run ⟨[⟨userSchema, [Value.Int64 5]⟩], [.Removed], [.free], [((7, 9), ⟨0, 0⟩)]⟩
        [Op.create userTy [Value.Int64 36] (.ok ()) (.ok 1),
         Op.borrow_mut ⟨1, 1, 1⟩, Op.dropWrite 1, Op.delete ⟨1, 1, 1⟩] =
      some ⟨[⟨userSchema, [Value.Int64 5]⟩, ⟨userSchema, [Value.Int64 36]⟩],
        [.Removed, .Removed], [.free, .free],
        [((7, 9), ⟨0, 0⟩), ((7, 1), ⟨1, 1⟩)]⟩ ∧
    (∀ c, c < 1 →
      ([ObjectState.Removed].getD c .Clean = .Removed →
        [ObjectState.Removed, ObjectState.Removed].getD c .Clean = .Removed)) :=
  ⟨by rfl,
   fun c hc => (c4_state_monotonicity
     ⟨[⟨userSchema, [Value.Int64 5]⟩], [.Removed], [.free], [((7, 9), ⟨0, 0⟩)]⟩
     [Op.create userTy [Value.Int64 36] (.ok ()) (.ok 1),
      Op.borrow_mut ⟨1, 1, 1⟩, Op.dropWrite 1, Op.delete ⟨1, 1, 1⟩]
     ⟨[⟨userSchema, [Value.Int64 5]⟩, ⟨userSchema, [Value.Int64 36]⟩],
       [.Removed, .Removed], [.free, .free],
       [((7, 9), ⟨0, 0⟩), ((7, 1), ⟨1, 1⟩)]⟩ (by rfl)).2.2 c hc⟩

/-! Helper lemmas for well-formedness of the identity map. -/

theorem wf_of_frame {s s1 : TxState} (hslots : s1.slots.length = s.slots.length)
    (hcells : s1.cells.length = s.cells.length) (hcache : s1.cache = s.cache)
    (hwf : s.wf) : s1.wf := by
  obtain ⟨hnd, hb⟩ := hwf
  constructor
  · rw [hcache]
    exact hnd
  · intro e he
    rw [hcache] at he
    obtain ⟨hb1, hb2⟩ := hb e he
    rw [hcells, hslots]
    exact ⟨hb1, hb2⟩

theorem wf_install {s : TxState} (hwf : s.wf) (k : CacheKey) (o : StoredObj)
    (f : LockSt) :
    (TxState.mk (s.slots ++ [o]) (s.cells ++ [.Clean]) (s.locks ++ [f])
      (insertCache k ⟨s.cells.length, s.slots.length⟩ s.cache)).wf := by
  obtain ⟨hnd, hb⟩ := hwf
  refine ⟨nodup_keys_insertCache hnd, ?_⟩
  intro e he
  rcases mem_insertCache he with rfl | he2
  · refine ⟨?_, ?_⟩ <;> simp
  · obtain ⟨hb1, hb2⟩ := hb e he2
    refine ⟨?_, ?_⟩ <;> simp <;> omega

theorem create_snd_state (ty : TypeInfo) (obj : List Value)
    (prep : Except Error Unit) (ins : Except Error Int) (s : TxState) :
    (Transaction.create ty obj prep ins s).2 = s ∨
    ∃ idv, (Transaction.create ty obj prep ins s).2 =
      ⟨s.slots ++ [⟨ty.schema, obj⟩], s.cells ++ [.Clean], s.locks ++ [.free],
        insertCache (ty.tag, idv) ⟨s.cells.length, s.slots.length⟩ s.cache⟩ := by
  cases prep with
  | error e => exact Or.inl rfl
  | ok u =>
    cases ins with
    | error e => exact Or.inl rfl
    | ok idv => exact Or.inr ⟨idv, rfl⟩

theorem get_snd_state (ty : TypeInfo) (idv : Int) (prep : Except Error Unit)
    (sel : Except Error (List Value)) (s : TxState) :
    (Transaction.get ty idv prep sel s).2 = s ∨
    ∃ row, (Transaction.get ty idv prep sel s).2 =
      ⟨s.slots ++ [⟨ty.schema, row⟩], s.cells ++ [.Clean], s.locks ++ [.free],
        insertCache (ty.tag, idv) ⟨s.cells.length, s.slots.length⟩ s.cache⟩ := by
  cases prep with
  | error e => exact Or.inl rfl
  | ok u =>
    cases hl : lookupCache s.cache (ty.tag, idv) with
    | some cv =>
      by_cases hrem : s.cells.getD cv.cellId .Clean = .Removed
      · rw [List.getD_eq_getElem?_getD] at hrem
        simp [Transaction.get, hl, hrem]
      · rw [List.getD_eq_getElem?_getD] at hrem
        simp [Transaction.get, hl, hrem]
    | none =>
      cases sel with
      | error e => simp [Transaction.get, hl]
      | ok row =>
        right
        exact ⟨row, by simp [Transaction.get, hl]⟩

/-- Every operation preserves well-formedness of the identity map — in
particular the cache never acquires two entries with the same
`(type, id)` key. -/
theorem wf_step {s : TxState} {op : Op} {s2 : TxState} (hwf : s.wf)
    (h : step s op = some s2) : s2.wf := by
  cases op with
  | create ty obj prep ins =>
    have h2 : (Transaction.create ty obj prep ins s).2 = s2 := by
      simpa [step] using h
    rcases create_snd_state ty obj prep ins s with hst | ⟨idv, hst⟩
    · rw [← h2, hst]
      exact hwf
    · rw [← h2, hst]
      exact wf_install hwf _ _ _
  | get ty idv prep sel =>
    have h2 : (Transaction.get ty idv prep sel s).2 = s2 := by
      simpa [step] using h
    rcases get_snd_state ty idv prep sel s with hst | ⟨row, hst⟩
    · rw [← h2, hst]
      exact hwf
    · rw [← h2, hst]
      exact wf_install hwf _ _ _
  | borrow h0 =>
    cases hb : h0.borrow s with
    | none => rw [step, hb] at h; cases h
    | some vs =>
      obtain ⟨v, s1⟩ := vs
      obtain rfl : s1 = s2 := by
        rw [step, hb] at h
        injection h
      obtain ⟨hf1, hf2, hf3⟩ := borrow_some hb
      exact wf_of_frame (by rw [hf1]) (by rw [hf2]) hf3 hwf
  | borrow_mut h0 =>
    cases hb : h0.borrow_mut s with
    | none => rw [step, hb] at h; cases h
    | some vs =>
      obtain ⟨v, s1⟩ := vs
      obtain rfl : s1 = s2 := by
        rw [step, hb] at h
        injection h
      obtain ⟨hrm, hf1, hf2, hf3⟩ := borrow_mut_some hb
      exact wf_of_frame (by rw [hf1]) (by rw [hf2]; simp) hf3 hwf
  | delete h0 =>
    have hd : h0.delete s = some s2 := h
    obtain ⟨hf1, hf2, hf3⟩ := delete_some hd
    exact wf_of_frame (by rw [hf1]) (by rw [hf2]; simp) hf3 hwf
  | write i row =>
    obtain rfl : writeSlot i row s = s2 := by simpa [step] using h
    exact @wf_of_frame s (writeSlot i row s) (by simp [writeSlot]) rfl rfl hwf
  | dropRead i =>
    obtain rfl : dropRead i s = s2 := by simpa [step] using h
    obtain ⟨hf1, hf2, hf3⟩ := dropRead_frame i s
    exact wf_of_frame (by rw [hf1]) (by rw [hf2]) hf3 hwf
  | dropWrite i =>
    obtain rfl : dropWrite i s = s2 := by simpa [step] using h
    obtain ⟨hf1, hf2, hf3⟩ := dropWrite_frame i s
    exact wf_of_frame (by rw [hf1]) (by rw [hf2]) hf3 hwf

/-- Inversion of a successful `get`: the returned handle carries the
requested id and exactly the indices the cache entry holds; that entry is
not `Removed`, its slot is live, and the state stays well-formed. -/
theorem get_ok {ty : TypeInfo} {idv : Int} {p : Except Error Unit}
    {sel : Except Error (List Value)} {s : TxState} {h1 : Tx} {s1 : TxState}
    (hwf : s.wf)
    (hg : Transaction.get ty idv p sel s = (.ok h1, s1)) :
    h1.id = idv ∧
    lookupCache s1.cache (ty.tag, idv) = some ⟨h1.cellId, h1.slotId⟩ ∧
    s1.cells.getD h1.cellId .Clean ≠ .Removed ∧
    h1.slotId < s1.slots.length ∧ s1.wf := by
  cases p with
  | error e => simp [Transaction.get] at hg
  | ok u =>
    cases hl : lookupCache s.cache (ty.tag, idv) with
    | some cv =>
      by_cases hrem : s.cells.getD cv.cellId .Clean = .Removed
      · have hrem2 := hrem
        rw [List.getD_eq_getElem?_getD] at hrem2
        simp [Transaction.get, hl, hrem2] at hg
      · have hrem2 := hrem
        rw [List.getD_eq_getElem?_getD] at hrem2
        have hred : Transaction.get ty idv (.ok u) sel s =
            (.ok ⟨idv, cv.cellId, cv.slotId⟩, s) := by
          simp [Transaction.get, hl, hrem2]
        rw [hred] at hg
        injection hg with hga hgb
        injection hga with hga
        subst hgb
        subst hga
        refine ⟨rfl, by rw [hl], hrem, ?_, hwf⟩
        exact (hwf.2 _ (lookupCache_mem hl)).2
    | none =>
      cases sel with
      | error e => simp [Transaction.get, hl] at hg
      | ok row =>
        have hred : Transaction.get ty idv (.ok u) (.ok row) s =
            (.ok ⟨idv, s.cells.length, s.slots.length⟩,
              ⟨s.slots ++ [⟨ty.schema, row⟩], s.cells ++ [.Clean],
                s.locks ++ [.free],
                insertCache (ty.tag, idv) ⟨s.cells.length, s.slots.length⟩
                  s.cache⟩) := by
          simp [Transaction.get, hl]
        rw [hred] at hg
        injection hg with hga hgb
        injection hga with hga
        subst hgb
        subst hga
        refine ⟨rfl, lookupCache_insert_self _ _ _, ?_, by simp, wf_install hwf _ _ _⟩
        rw [getD_snoc_length]
        simp

/-- C1.  Identity-map uniqueness: starting from a well-formed state, two
consecutive successful `get::<T>(id)` calls return handles that both
report the requested id and share the same state cell and object slot (the
two cloned `Rc`s); the second call changes nothing, a row written through
the first handle's slot is read back through the second handle, and the
state stays well-formed — in particular (second conjunct, preserved by
every operation) the cache holds at most one entry per `(type, id)`. -/
theorem c1_identity_map :
    (∀ (s : TxState) (ty : TypeInfo) (idv : Int)
        (p1 p2 : Except Error Unit) (sel1 sel2 : Except Error (List Value))
        (h1 : Tx) (s1 : TxState) (h2 : Tx) (s2 : TxState),
      s.wf →
      Transaction.get ty idv p1 sel1 s = (.ok h1, s1) →
      Transaction.get ty idv p2 sel2 s1 = (.ok h2, s2) →
      h1.id = idv ∧ h2.id = idv ∧ h1.cellId = h2.cellId ∧
      h1.slotId = h2.slotId ∧ s2 = s1 ∧
      (∀ row, (readSlot h2 (writeSlot h1.slotId row s2)).row = row) ∧
      s2.wf) ∧
    (∀ (s : TxState) (op : Op) (s2 : TxState),
      s.wf → step s op = some s2 → s2.wf) := by
  constructor
  · intro s ty idv p1 p2 sel1 sel2 h1 s1 h2 s2 hwf hg1 hg2
    obtain ⟨hid1, hlook, hrem, hslot, hwf1⟩ := get_ok hwf hg1
    cases p2 with
    | error e => simp [Transaction.get] at hg2
    | ok u =>
      have hrem2 := hrem
      rw [List.getD_eq_getElem?_getD] at hrem2
      have hred : Transaction.get ty idv (.ok u) sel2 s1 =
          (.ok ⟨idv, h1.cellId, h1.slotId⟩, s1) := by
        simp [Transaction.get, hlook, hrem2]
      rw [hred] at hg2
      injection hg2 with hg2a hg2b
      injection hg2a with hg2a
      subst hg2b
      subst hg2a
      refine ⟨hid1, rfl, rfl, rfl, rfl, ?_, hwf1⟩
      intro row
      show ((s1.slots.set h1.slotId
        { s1.slots.getD h1.slotId default with row := row }).getD h1.slotId
          default).row = row
      rw [getD_set_self hslot]
  · exact fun s op s2 hwf h => wf_step hwf h

/-- Concrete instance of `c1_identity_map`: a miss-then-hit pair of `get`s
on an initially empty transaction shares one slot and cell, a write through
the first handle is read back through the second, and the one-entry cache
stays well-formed, also across a further `delete` step. -/
theorem c1_witness :
    ((⟨1, 0, 0⟩ : Tx).id = 1 ∧ (⟨1, 0, 0⟩ : Tx).id = 1 ∧
      (⟨1, 0, 0⟩ : Tx).cellId = (⟨1, 0, 0⟩ : Tx).cellId ∧
      (⟨1, 0, 0⟩ : Tx).slotId = (⟨1, 0, 0⟩ : Tx).slotId ∧
      (⟨[⟨userSchema, [Value.Int64 36]⟩], [.Clean], [.free],
          [((7, 1), ⟨0, 0⟩)]⟩ : TxState) =
        ⟨[⟨userSchema, [Value.Int64 36]⟩], [.Clean], [.free],
          [((7, 1), ⟨0, 0⟩)]⟩ ∧
      (∀ row, (readSlot ⟨1, 0, 0⟩ (writeSlot 0 row
          ⟨[⟨userSchema, [Value.Int64 36]⟩], [.Clean], [.free],
            [((7, 1), ⟨0, 0⟩)]⟩)).row = row) ∧
      TxState.wf ⟨[⟨userSchema, [Value.Int64 36]⟩], [.Clean], [.free],
        [((7, 1), ⟨0, 0⟩)]⟩) ∧
    TxState.wf ⟨[⟨userSchema, [Value.Int64 36]⟩], [.Removed], [.free],
      [((7, 1), ⟨0, 0⟩)]⟩ :=
  ⟨c1_identity_map.1 ⟨[], [], [], []⟩ userTy 1 (.ok ()) (.ok ())
      (.ok [Value.Int64 36]) (.ok [Value.Int64 99]) ⟨1, 0, 0⟩
      ⟨[⟨userSchema, [Value.Int64 36]⟩], [.Clean], [.free], [((7, 1), ⟨0, 0⟩)]⟩
      ⟨1, 0, 0⟩
      ⟨[⟨userSchema, [Value.Int64 36]⟩], [.Clean], [.free], [((7, 1), ⟨0, 0⟩)]⟩
      (by decide) (by rfl) (by rfl),
   c1_identity_map.2
      ⟨[⟨userSchema, [Value.Int64 36]⟩], [.Clean], [.free], [((7, 1), ⟨0, 0⟩)]⟩
      (Op.delete ⟨1, 0, 0⟩)
      ⟨[⟨userSchema, [Value.Int64 36]⟩], [.Removed], [.free], [((7, 1), ⟨0, 0⟩)]⟩
      (by decide) (by rfl)⟩

end ORM
